import Mathlib

/-!
Verification development for a Go package that estimates football team
strengths by gradient-ascent maximum likelihood over a Dixon-Coles
adjusted Poisson match model, projects the current season by Monte-Carlo
path sampling, and evaluates outright betting markets.

Modelling conventions:
- float64 values are modelled as elements of a linear ordered field K;
  the transcendental intrinsics math.Exp, math.Log, math.Pow and math.Sqrt
  are collected in a FloatOps record, with realFloatOps the intended real
  instantiation (math.Pow modelled by Real.rpow on its non-NaN domain).
- Go maps with float64 values are modelled as total functions defaulting
  to 0, matching Go map-read semantics; map[string]bool sets are Finsets.
- Go strings at the relevant call sites are ASCII, so byte indexing
  coincides with character indexing.
- Printing (Debug output) has no observable effect on results and is not
  modelled.
-/

/-- Record of a completed match (types.go, MatchResult).  Goal counts are
declared int in Go but are non-negative observations. -/
structure MatchResult where
  date : String
  season : String
  league : String
  homeTeam : String
  awayTeam : String
  homeGoals : Nat
  awayGoals : Nat
  deriving DecidableEq, Repr, Inhabited

/-- Simulation and MLE parameterization values (types.go, SimParams). -/
structure SimParams (K : Type) where
  homeAdvantage : K
  baseLearningRate : K
  leagueChangeLearningRate : K
  timeDecayBase : K
  timeDecayPower : K
  maxIterations : Nat
  tolerance : K
  simulationPaths : Nat
  goalSimulationBound : Nat
  goalDifferenceEffect : K
  deriving DecidableEq, Repr

/-- Options passed to the solver (types.go, MLEOptions).  The Go field is
a pointer to SimParams; the solver is only run with a non-nil pointer, so
it is modelled as a value. -/
structure MLEOptions (K : Type) where
  simParams : SimParams K
  debug : Bool
  deriving DecidableEq, Repr

/-- Fitted parameter state (types.go, MLEParams).  The two rating maps are
modelled as total functions with default 0, matching Go map reads. -/
structure MLEParams (K : Type) where
  homeAdvantage : K
  rho : K
  attackRatings : String → K
  defenseRatings : String → K
  logLikelihood : K
  iterations : Nat
  converged : Bool

/-- Transcendental float64 intrinsics used by the solver and sampler. -/
structure FloatOps (K : Type) where
  exp : K → K
  log : K → K
  pow : K → K → K
  sqrt : K → K

/-- Real instantiation of the float operations. -/
noncomputable def realFloatOps : FloatOps ℝ :=
  { exp := Real.exp
    log := Real.log
    pow := fun b e => Real.rpow b e
    sqrt := Real.sqrt }

/-- Value of a nonempty all-digit ASCII string (the digit part of
strconv.Atoi). -/
def goDigits? (cs : List Char) : Option Nat :=
  if cs.isEmpty then none
  else cs.foldlM (fun acc c => if c.isDigit then some (acc * 10 + (c.toNat - 48)) else none) 0

/-- Model of Go strconv.Atoi: an optional single sign character followed
by one or more ASCII digits.  Overflow cannot occur at the call sites,
which pass two-character strings. -/
def goAtoi (cs : List Char) : Option Int :=
  match cs with
  | [] => none
  | c :: rest =>
    if c = '+' then (goDigits? rest).map Int.ofNat
    else if c = '-' then (goDigits? rest).map (fun n => -Int.ofNat n)
    else (goDigits? cs).map Int.ofNat

/-- Model of convertSeasonToYear (parse utilities): a season code parses
exactly when it has four characters and its first two characters form an
integer under strconv.Atoi; the year is 2000 plus that integer. -/
def convertSeasonToYear (season : String) : Option Int :=
  if season.length = 4 then (goAtoi (season.toList.take 2)).map (fun y => 2000 + y)
  else none

/-- Solver context (mle.go, MLESolver): the borrowed archive, the options
and the league-change team set handed over by the event analyzer. -/
structure MLESolver (K : Type) where
  archive : List MatchResult
  options : MLEOptions K
  leagueChangeTeams : Finset String

variable {K : Type} [LinearOrderedField K]

/-- Team universe of a solver: every home or away name appearing in the
archive (the teamNames set built by NewMLESolver). -/
def solverTeams (s : MLESolver K) : Finset String :=
  (s.archive.flatMap (fun m => [m.homeTeam, m.awayTeam])).toFinset

/-- Model of findLatestSeason (mle.go): fold keeping the lexicographically
largest season string, starting from the empty string. -/
def findLatestSeason (archive : List MatchResult) : String :=
  archive.foldl (fun acc m => if acc < m.season then m.season else acc) ""

/-- Latest season stored in the solver by NewMLESolver. -/
def solverLatestSeason (s : MLESolver K) : String :=
  findLatestSeason s.archive

/-- Model of getTimeWeight (mle.go): weight timeDecayBase ^ (yearsAgo *
timeDecayPower), falling back to 1 when either the latest season code or
the match season code fails to parse. -/
def getTimeWeight (F : FloatOps K) (p : SimParams K) (latestSeason season : String) : K :=
  match convertSeasonToYear latestSeason with
  | none => 1
  | some latestYear =>
    match convertSeasonToYear season with
    | none => 1
    | some seasonYear =>
      F.pow p.timeDecayBase (((latestYear - seasonYear : Int) : K) * p.timeDecayPower)

/-- Model of getAdaptiveLearningRate (mle.go): enhanced rate for a
league-change team whose decisive match lies in the latest season, the
base rate otherwise. -/
def getAdaptiveLearningRate (F : FloatOps K) (s : MLESolver K) (team : String)
    (baseLearningRate : K) (m : MatchResult) : K :=
  if team ∈ s.leagueChangeTeams ∧ m.season = solverLatestSeason s then
    let enhancementRange := s.options.simParams.leagueChangeLearningRate - 1
    let enhancementFactor := s.options.simParams.leagueChangeLearningRate -
      enhancementRange *
        getTimeWeight F s.options.simParams (solverLatestSeason s) (solverLatestSeason s)
    baseLearningRate * enhancementFactor
  else baseLearningRate

/-- Last archive entry involving a team: the teamLastMatch map built while
scanning the archive in updateRatings.  A Go map read of a team with no
match yields the zero MatchResult. -/
def lastMatchFor (archive : List MatchResult) (team : String) : MatchResult :=
  archive.foldl (fun acc m => if m.homeTeam = team ∨ m.awayTeam = team then m else acc) default

/-- Home goal expectation of a match under the current parameters. -/
def lambdaHome (F : FloatOps K) (p : MLEParams K) (m : MatchResult) : K :=
  F.exp (p.attackRatings m.homeTeam - p.defenseRatings m.awayTeam + p.homeAdvantage)

/-- Away goal expectation of a match under the current parameters. -/
def lambdaAway (F : FloatOps K) (p : MLEParams K) (m : MatchResult) : K :=
  F.exp (p.attackRatings m.awayTeam - p.defenseRatings m.homeTeam)

/-- Accumulated attack gradient of a team: the per-match time-weighted
residuals summed over the archive (the gradients map of updateRatings,
attack bucket). -/
def attackGradient (F : FloatOps K) (s : MLESolver K) (p : MLEParams K) (t : String) : K :=
  (s.archive.map (fun m =>
    getTimeWeight F s.options.simParams (solverLatestSeason s) m.season *
      ((if m.homeTeam = t then (m.homeGoals : K) - lambdaHome F p m else 0) +
       (if m.awayTeam = t then (m.awayGoals : K) - lambdaAway F p m else 0)))).sum

/-- Accumulated defense gradient of a team (the gradients map of
updateRatings, defense bucket). -/
def defenseGradient (F : FloatOps K) (s : MLESolver K) (p : MLEParams K) (t : String) : K :=
  (s.archive.map (fun m =>
    getTimeWeight F s.options.simParams (solverLatestSeason s) m.season *
      ((if m.homeTeam = t then lambdaAway F p m - (m.awayGoals : K) else 0) +
       (if m.awayTeam = t then lambdaHome F p m - (m.homeGoals : K) else 0)))).sum

/-- Model of normalizeRatings (mle.go): subtract the mean attack rating
and the mean defense rating from every known team. -/
def normalizeRatings (teams : Finset String) (p : MLEParams K) : MLEParams K :=
  let teamCount : K := (teams.card : K)
  let attackAverage := (∑ t ∈ teams, p.attackRatings t) / teamCount
  let defenseAverage := (∑ t ∈ teams, p.defenseRatings t) / teamCount
  { p with
    attackRatings := fun t =>
      if t ∈ teams then p.attackRatings t - attackAverage else p.attackRatings t
    defenseRatings := fun t =>
      if t ∈ teams then p.defenseRatings t - defenseAverage else p.defenseRatings t }

/-- Model of updateRatings (mle.go): one gradient-ascent step.  A gradient
map entry exists for a team exactly when the team appears in some match,
which for members of the teamNames set is always the case; the per-team
adaptive rate is decided by the last archive entry involving the team.
The step ends with the zero-sum renormalisation. -/
def updateRatings (F : FloatOps K) (s : MLESolver K) (learningRate : K)
    (p : MLEParams K) : MLEParams K :=
  let upd := { p with
    attackRatings := fun t =>
      if t ∈ solverTeams s then
        p.attackRatings t +
          getAdaptiveLearningRate F s t learningRate (lastMatchFor s.archive t) *
            attackGradient F s p t
      else p.attackRatings t
    defenseRatings := fun t =>
      if t ∈ solverTeams s then
        p.defenseRatings t +
          getAdaptiveLearningRate F s t learningRate (lastMatchFor s.archive t) *
            defenseGradient F s p t
      else p.defenseRatings t }
  normalizeRatings (solverTeams s) upd

/-- Model of logFactorial (mle.go): direct summation of logarithms. -/
def logFactorial (F : FloatOps K) (n : Nat) : K :=
  if n ≤ 1 then 0 else ((List.range' 2 (n - 1)).map (fun i => F.log (i : K))).sum

/-- Model of PoissonProb (mle.go): Poisson probability mass computed in
log space. -/
def PoissonProb (F : FloatOps K) (lambda : K) (k : Int) : K :=
  if k < 0 then 0
  else if lambda ≤ 0 then (if k = 0 then 1 else 0)
  else F.exp ((k : K) * F.log lambda - lambda - logFactorial F k.toNat)

/-- Model of DixonColesAdjustment (mle.go): low-score correlation
correction. -/
def DixonColesAdjustment (homeGoals awayGoals : Nat) (rho : K) : K :=
  if 1 < homeGoals ∨ 1 < awayGoals then 1
  else if homeGoals = 0 ∧ awayGoals = 0 then 1 - rho
  else if homeGoals = 0 ∧ awayGoals = 1 then 1 + rho
  else if homeGoals = 1 ∧ awayGoals = 0 then 1 + rho
  else if homeGoals = 1 ∧ awayGoals = 1 then 1 - rho
  else 1

/-- Model of CalculateLogLikelihood (mle.go): time-weighted sum of the
logarithms of the per-match probabilities, skipping non-positive terms. -/
def CalculateLogLikelihood (F : FloatOps K) (s : MLESolver K) (p : MLEParams K) : K :=
  (s.archive.map (fun m =>
    let prob := PoissonProb F (lambdaHome F p m) (m.homeGoals : Int) *
                PoissonProb F (lambdaAway F p m) (m.awayGoals : Int) *
                DixonColesAdjustment m.homeGoals m.awayGoals p.rho
    if 0 < prob then
      getTimeWeight F s.options.simParams (solverLatestSeason s) m.season * F.log prob
    else 0)).sum

/-- Parameter state set up at the top of Optimize: home advantage from
SimParams, rho fixed at -0.1, all ratings zero. -/
def initParams (s : MLESolver K) : MLEParams K :=
  { homeAdvantage := s.options.simParams.homeAdvantage
    rho := -(1 / 10)
    attackRatings := fun _ => 0
    defenseRatings := fun _ => 0
    logLikelihood := 0
    iterations := 0
    converged := false }

/-- Parameter state after n gradient-ascent iterations of Optimize. -/
def mleIterate (F : FloatOps K) (s : MLESolver K) : Nat → MLEParams K
  | 0 => initParams s
  | n + 1 => updateRatings F s s.options.simParams.baseLearningRate (mleIterate F s n)

/-- Loop body of Optimize (mle.go), recursing on the number of remaining
iterations.  On fall-through the final log-likelihood is recomputed and
the convergence flag left false. -/
def optimizeGo (F : FloatOps K) (s : MLESolver K) :
    Nat → Nat → MLEParams K → K → MLEParams K
  | 0, _, st, _ =>
    { st with logLikelihood := CalculateLogLikelihood F s st
              iterations := s.options.simParams.maxIterations
              converged := false }
  | r + 1, iter, st, prevL =>
    let st1 := updateRatings F s s.options.simParams.baseLearningRate st
    let cur := CalculateLogLikelihood F s st1
    if 0 < iter ∧ |cur - prevL| < s.options.simParams.tolerance then
      { st1 with logLikelihood := cur, iterations := iter + 1, converged := true }
    else optimizeGo F s r (iter + 1) st1 cur

/-- Model of Optimize (mle.go).  The Go function returns a params pointer
and an error; every return site passes a nil error, modelled by the ok
constructor. -/
def Optimize (F : FloatOps K) (s : MLESolver K) : Except String (MLEParams K) :=
  .ok (optimizeGo F s s.options.simParams.maxIterations 0 (initParams s)
        (CalculateLogLikelihood F s (initParams s)))

/-- Knuth multiplicative loop of PoissonSample (math.go): while the
running product exceeds exp(-lambda), draw another uniform variate and
multiply.  The draws come from the stream u; fuel bounds the number of
draws modelled, with none denoting a run that would keep drawing. -/
def knuthLoop (u : Nat → K) (L : K) : Nat → Nat → Nat → K → Option Int
  | 0, _, k, p => if p > L then none else some ((k : Int) - 1)
  | fuel + 1, i, k, p =>
    if p > L then knuthLoop u L fuel (i + 1) (k + 1) (p * u i) else some ((k : Int) - 1)

/-- Model of PoissonSample (math.go).  Negative lambda returns 0; lambda
below 12 runs the Knuth loop; otherwise the normal approximation uses the
draw z, truncated after clamping at 0 (Go int conversion truncates, and
the clamped value is non-negative, so truncation is the floor). -/
def PoissonSample [FloorRing K] (F : FloatOps K) (u : Nat → K) (z : K) (fuel : Nat)
    (lambda : K) : Option Int :=
  if lambda < 0 then some 0
  else if lambda < 12 then knuthLoop u (F.exp (-lambda)) fuel 0 0 1
  else some ⌊max 0 (z * F.sqrt lambda + lambda + 1 / 2)⌋

/-- Split of a character list at every occurrence of a separator
character: structural model of Go strings.Split (all separators used by
the package are single ASCII characters). -/
def splitOnChar (sep : Char) : List Char → List (List Char)
  | [] => [[]]
  | c :: rest =>
    let r := splitOnChar sep rest
    if c = sep then [] :: r
    else
      match r with
      | [] => [[c]]
      | h :: t => (c :: h) :: t

/-- String form of splitOnChar. -/
def goSplit (sep : Char) (s : String) : List String :=
  (splitOnChar sep s.toList).map String.mk

/-- Match event in display form (types.go, Event).  A played event carries
a two-entry score; a bare fixture has none. -/
structure Event where
  name : String
  date : String
  score : List Int
  deriving DecidableEq, Repr, Inhabited

/-- Model of getRounds (simulator.go): two rounds for Scottish league
codes, one otherwise. -/
def getRounds (league : String) : Nat :=
  if league.toList.take 3 = ['S', 'C', 'O'] then 2 else 1

/-- Number of times a fixture name occurs among the events carrying a
two-entry score (the playedCounts map of calcRemainingFixtures). -/
def playedCount (events : List Event) (name : String) : Nat :=
  ((events.filter (fun e => e.score.length = 2)).map (fun e => e.name)).count name

/-- Model of calcRemainingFixtures (simulator.go): for every ordered pair
of index-distinct entries of the team list, append one copy of the
fixture string for each round not yet covered by a played event. -/
def calcRemainingFixtures (teamNames : List String) (events : List Event)
    (rounds : Nat) : List String :=
  teamNames.enum.flatMap (fun ih =>
    teamNames.enum.flatMap (fun ja =>
      if ih.1 ≠ ja.1 then
        List.replicate (rounds - playedCount events (ih.2 ++ " vs " ++ ja.2))
          (ih.2 ++ " vs " ++ ja.2)
      else []))

/-- Per-team per-path points state (simulator.go, SimPoints).  The Go
Points field is a slice of per-team rows of length NPaths; it is modelled
as a total function from row index and path index.  The position cache
only memoises results and is not modelled. -/
structure SimPoints (K : Type) where
  nPaths : Nat
  teamNames : List String
  points : Nat → Nat → K

/-- Model of getTeamIndex (simulator.go): index of the first occurrence of
a name, with the Go sentinel -1 modelled as none. -/
def getTeamIndex (sp : SimPoints K) (name : String) : Option Nat :=
  sp.teamNames.findIdx? (fun n => n == name)

/-- Indices of the requested teams that are present in the points matrix
(the selectedIndices slice of positionProbabilities). -/
def selectedIndices (sp : SimPoints K) (subset : List String) : List Nat :=
  subset.filterMap (fun name => getTeamIndex sp name)

/-- Per-path array of (selected-team index, points) pairs built by
positionProbabilities before sorting. -/
def pathEntries (sp : SimPoints K) (sel : List Nat) (path : Nat) : List (Nat × K) :=
  sel.enum.map (fun it => (it.1, sp.points it.2 path))

/-- Per-path entries sorted by points descending (sort.Slice with a
greater-than comparator; the sort is unstable, and no property proved
below depends on the order chosen among ties). -/
def sortedEntries (sp : SimPoints K) (sel : List Nat) (path : Nat) : List (Nat × K) :=
  (pathEntries sp sel path).mergeSort (fun a b => decide (a.2 > b.2))

/-- Finishing position of selected-team index j on a path: its index in
the sorted per-path array (the positions matrix). -/
def positionOf (sp : SimPoints K) (sel : List Nat) (path : Nat) (j : Nat) : Nat :=
  (sortedEntries sp sel path).findIdx (fun e => e.1 == j)

/-- Position-probability vector of selected-team index j: entry pos
accumulates 1/NPaths for every path on which j finishes at pos. -/
def probsFor (sp : SimPoints K) (sel : List Nat) (j : Nat) : List K :=
  (List.range sel.length).map (fun pos =>
    ∑ path ∈ Finset.range sp.nPaths,
      if positionOf sp sel path j = pos then (1 : K) / (sp.nPaths : K) else 0)

/-- Model of positionProbabilities (simulator.go) as the map it returns:
a requested name present in the points matrix is sent to its probability
vector; the all-zero vector of the dead branch (a found team absent from
selectedIndices) is kept for faithfulness though it is unreachable. -/
def positionProbabilities (sp : SimPoints K) (subset : List String)
    (name : String) : Option (List K) :=
  let sel := selectedIndices sp subset
  if name ∈ subset then
    match getTeamIndex sp name with
    | none => none
    | some idx =>
      match sel.findIdx? (fun s => s == idx) with
      | none => some ((List.range sel.length).map (fun _ => 0))
      | some j => some (probsFor sp sel j)
  else none

/-- Digit characters folded into a natural number. -/
def digitsVal (cs : List Char) : Nat :=
  cs.foldl (fun a c => a * 10 + (c.toNat - 48)) 0

/-- Decimal-literal representation: sign, integer digits, fraction
digits. -/
structure DecimalRepr where
  negative : Bool
  intPart : List Char
  fracPart : List Char
  deriving DecidableEq, Repr

/-- Model of strconv.ParseFloat restricted to plain decimal literals
(optional sign, digits, optional fraction), the only shapes occurring in
payoff expressions; other ParseFloat inputs are outside the modelled
domain and return none. -/
def goParseFloatRepr? (s : String) : Option DecimalRepr :=
  let cs := s.toList
  let (neg, body) :=
    match cs with
    | c :: rest =>
      if c = '+' then (false, rest)
      else if c = '-' then (true, rest)
      else (false, cs)
    | [] => (false, cs)
  match splitOnChar '.' body with
  | [ip] =>
    if ip.all Char.isDigit ∧ ip ≠ [] then
      some { negative := neg, intPart := ip, fracPart := [] }
    else none
  | [ip, fp] =>
    if ip.all Char.isDigit ∧ fp.all Char.isDigit ∧ (ip ≠ [] ∨ fp ≠ []) then
      some { negative := neg, intPart := ip, fracPart := fp }
    else none
  | _ => none

/-- Value of a decimal representation in the field K. -/
def decimalValue (r : DecimalRepr) : K :=
  (if r.negative then -1 else 1) *
    ((digitsVal r.intPart : K) + (digitsVal r.fracPart : K) / (10 : K) ^ r.fracPart.length)

/-- Parsed float64 value of a plain decimal literal. -/
def goParseFloat? (s : String) : Option K :=
  (goParseFloatRepr? s).map decimalValue

/-- Recursive worker of parsePayoff (markets.go) over the pipe-separated
token list: a one-piece split is a bare value, a two-piece split is a
count and a value, anything else is a format error; the first failing
token aborts. -/
def parsePayoffParts : List String → Except String (List K)
  | [] => .ok []
  | e :: rest =>
    match goSplit 'x' e with
    | [t] =>
      match goParseFloat? (K := K) t with
      | none => .error ("invalid payoff format: " ++ e)
      | some v =>
        match parsePayoffParts rest with
        | .error msg => .error msg
        | .ok tail => .ok (List.replicate 1 v ++ tail)
    | [t1, t2] =>
      match goAtoi t1.toList, goParseFloat? (K := K) t2 with
      | some n, some v =>
        match parsePayoffParts rest with
        | .error msg => .error msg
        | .ok tail => .ok (List.replicate n.toNat v ++ tail)
      | _, _ => .error ("invalid payoff format: " ++ e)
    | _ => .error ("invalid payoff format: " ++ e)

/-- Model of parsePayoff (markets.go). -/
def parsePayoff (s : String) : Except String (List K) :=
  parsePayoffParts (goSplit '|' s)

/-- Count contributed by one token: 1 for a bare value, the parsed count
for an NxV token. -/
def tokenCount (t : String) : Nat :=
  match goSplit 'x' t with
  | [_] => 1
  | [a, _] => ((goAtoi a.toList).getD 0).toNat
  | _ => 0

/-- Value contributed by one token. -/
def tokenValue (t : String) : K :=
  match goSplit 'x' t with
  | [a] => (goParseFloat? a).getD 0
  | [_, b] => (goParseFloat? b).getD 0
  | _ => 0

/-- One token of the payoff grammar: either a bare decimal number, or a
positive all-digit count, an x, and a decimal number. -/
def validToken (t : String) : Bool :=
  match goSplit 'x' t with
  | [a] => (goParseFloatRepr? a).isSome
  | [a, b] =>
    (!a.toList.isEmpty) && a.toList.all Char.isDigit && decide (1 ≤ digitsVal a.toList) &&
      (goParseFloatRepr? b).isSome
  | _ => false

/-- A payoff expression every token of which is valid. -/
def validPayoff (s : String) : Bool :=
  (goSplit '|' s).all validToken

/-- Left-to-right expansion of a payoff expression: each token contributes
its count of copies of its value, assigned to successive positions. -/
def payoffExpansion (s : String) : List K :=
  (goSplit '|' s).flatMap (fun t => List.replicate (tokenCount t) (tokenValue t))

/-- Model of ExtractTeams (events.go): the distinct home and away names.
Go materialises a set as a slice in arbitrary order; only length and
membership are consumed, so the dedup list is an adequate model. -/
def ExtractTeams (archive : List MatchResult) : List String :=
  (archive.flatMap (fun m => [m.homeTeam, m.awayTeam])).dedup

/-- Request handed to RunSimulation (types.go, MLERequest); the optional
league-group map is carried but not consumed by validation. -/
structure MLERequest (K : Type) where
  historicalData : List MatchResult
  leagueChangeTeams : Finset String
  leagueGroups : List (String × List String)
  handicaps : List (String × Int)
  options : MLEOptions K

/-- Model of validateRequest: empty archive, an archive of fewer than 100
matches, fewer than 10 distinct teams, or a handicap key absent from the
observed teams produce an error message; otherwise validation passes. -/
def validateRequest (req : MLERequest K) : Option String :=
  if req.historicalData.length = 0 then some "historical data is required"
  else if req.historicalData.length < 100 then some "insufficient historical data"
  else if (ExtractTeams req.historicalData).length < 10 then some "insufficient teams"
  else if 0 < req.handicaps.length then
    match req.handicaps.find? (fun h => !((ExtractTeams req.historicalData).contains h.1)) with
    | some h => some ("handicaps contains unknown team: " ++ h.1)
    | none => none
  else none

/-- Model of the validation and optimisation prefix of RunSimulation: a
failed validation returns the error without touching the solver; a passed
validation runs Optimize.  The defaulting of a zero-value options struct
and the assembly of the result object affect neither the error behaviour
nor the fitted parameters and are not modelled. -/
def RunSimulation (F : FloatOps K) (req : MLERequest K) : Except String (MLEParams K) :=
  match validateRequest req with
  | some msg => .error ("invalid request: " ++ msg)
  | none =>
    Optimize F { archive := req.historicalData, options := req.options,
                 leagueChangeTeams := req.leagueChangeTeams }

/-- Default parameterization (types.go, DefaultSimParams). -/
def DefaultSimParams : SimParams K :=
  { homeAdvantage := 3 / 10
    baseLearningRate := 1 / 1000
    leagueChangeLearningRate := 2
    timeDecayBase := 17 / 20
    timeDecayPower := 3 / 2
    maxIterations := 200
    tolerance := 1 / 1000000
    simulationPaths := 5000
    goalSimulationBound := 5
    goalDifferenceEffect := 1 / 10 }

/-- Rational float-operation stub used to instantiate generic theorems at
concrete inputs; the generic theorems hold for arbitrary operations, the
real instantiation included. -/
def ratFloatOps : FloatOps ℚ :=
  { exp := id, log := id, pow := fun _ _ => 1, sqrt := id }

/-- Renormalisation zeroes the attack-rating sum over the team set. -/
theorem sum_attack_normalize (teams : Finset String) (p : MLEParams K) :
    ∑ t ∈ teams, (normalizeRatings teams p).attackRatings t = 0 := by
  rcases Finset.eq_empty_or_nonempty teams with h | h
  · subst h; simp
  · have hcard : ((teams.card : K)) ≠ 0 :=
      Nat.cast_ne_zero.mpr (Finset.card_pos.mpr h).ne'
    have hsum : ∑ t ∈ teams, (normalizeRatings teams p).attackRatings t
        = ∑ t ∈ teams,
            (p.attackRatings t - (∑ u ∈ teams, p.attackRatings u) / (teams.card : K)) := by
      refine Finset.sum_congr rfl (fun t ht => ?_)
      simp [normalizeRatings, ht]
    rw [hsum, Finset.sum_sub_distrib, Finset.sum_const, nsmul_eq_mul, mul_comm,
      div_mul_cancel₀ _ hcard, sub_self]

/-- Renormalisation zeroes the defense-rating sum over the team set. -/
theorem sum_defense_normalize (teams : Finset String) (p : MLEParams K) :
    ∑ t ∈ teams, (normalizeRatings teams p).defenseRatings t = 0 := by
  rcases Finset.eq_empty_or_nonempty teams with h | h
  · subst h; simp
  · have hcard : ((teams.card : K)) ≠ 0 :=
      Nat.cast_ne_zero.mpr (Finset.card_pos.mpr h).ne'
    have hsum : ∑ t ∈ teams, (normalizeRatings teams p).defenseRatings t
        = ∑ t ∈ teams,
            (p.defenseRatings t - (∑ u ∈ teams, p.defenseRatings u) / (teams.card : K)) := by
      refine Finset.sum_congr rfl (fun t ht => ?_)
      simp [normalizeRatings, ht]
    rw [hsum, Finset.sum_sub_distrib, Finset.sum_const, nsmul_eq_mul, mul_comm,
      div_mul_cancel₀ _ hcard, sub_self]

/-- Gradient steps never touch the global home advantage. -/
theorem mleIterate_homeAdvantage (F : FloatOps K) (s : MLESolver K) (k : Nat) :
    (mleIterate F s k).homeAdvantage = s.options.simParams.homeAdvantage := by
  induction k with
  | zero => rfl
  | succ n ih => simpa [mleIterate, updateRatings, normalizeRatings] using ih

/-- Gradient steps never touch the Dixon-Coles correlation. -/
theorem mleIterate_rho (F : FloatOps K) (s : MLESolver K) (k : Nat) :
    (mleIterate F s k).rho = -(1 / 10) := by
  induction k with
  | zero => rfl
  | succ n ih => simpa [mleIterate, updateRatings, normalizeRatings] using ih

/-- C1: for every match archive and every number k of completed
gradient-ascent iterations, the zero-sum renormalisation ending iteration
k leaves the attack ratings and the defense ratings of the known teams
summing to zero (exactly, in the exact-arithmetic model of float64),
while the home advantage keeps the SimParams value it was initialised
from and rho keeps its initial value -0.1. -/
theorem zero_sum_after_iterations (F : FloatOps K) (s : MLESolver K) (k : Nat)
    (hk : 1 ≤ k) :
    (∑ t ∈ solverTeams s, (mleIterate F s k).attackRatings t) = 0 ∧
    (∑ t ∈ solverTeams s, (mleIterate F s k).defenseRatings t) = 0 ∧
    (mleIterate F s k).homeAdvantage = s.options.simParams.homeAdvantage ∧
    (mleIterate F s k).rho = -(1 / 10) := by
  obtain ⟨n, rfl⟩ : ∃ n, k = n + 1 := ⟨k - 1, (Nat.succ_pred_eq_of_pos hk).symm⟩
  refine ⟨?_, ?_, mleIterate_homeAdvantage F s (n + 1), mleIterate_rho F s (n + 1)⟩
  · show ∑ t ∈ solverTeams s,
      (updateRatings F s s.options.simParams.baseLearningRate (mleIterate F s n)).attackRatings t = 0
    unfold updateRatings
    exact sum_attack_normalize _ _
  · show ∑ t ∈ solverTeams s,
      (updateRatings F s s.options.simParams.baseLearningRate (mleIterate F s n)).defenseRatings t = 0
    unfold updateRatings
    exact sum_defense_normalize _ _

/-- Concrete two-match archive used to instantiate the C1 invariant. -/
def c1Solver : MLESolver ℚ :=
  { archive :=
      [{ date := "2024-08-10", season := "2425", league := "ENG1",
         homeTeam := "A", awayTeam := "B", homeGoals := 2, awayGoals := 0 },
       { date := "2024-12-15", season := "2425", league := "ENG1",
         homeTeam := "B", awayTeam := "A", homeGoals := 1, awayGoals := 1 }]
    options := { simParams := DefaultSimParams, debug := false }
    leagueChangeTeams := ∅ }

/-- Witness for C1 at a concrete archive after one iteration. -/
theorem zero_sum_after_iterations_witness :
    (∑ t ∈ solverTeams c1Solver, (mleIterate ratFloatOps c1Solver 1).attackRatings t) = 0 ∧
    (∑ t ∈ solverTeams c1Solver, (mleIterate ratFloatOps c1Solver 1).defenseRatings t) = 0 ∧
    (mleIterate ratFloatOps c1Solver 1).homeAdvantage =
      c1Solver.options.simParams.homeAdvantage ∧
    (mleIterate ratFloatOps c1Solver 1).rho = -(1 / 10) :=
  zero_sum_after_iterations ratFloatOps c1Solver 1 (le_refl 1)

/-- C4: during a gradient step the learning rate applied to a team
multiplies its accumulated gradient, and that rate is
base * (R - (R - 1) * w_latest) -- with R the league-change learning rate
and w_latest the time weight of the latest season -- exactly when the
team is in the league-change set and its decisive match belongs to the
latest season, and the base learning rate in every other case. -/
theorem adaptive_learning_rate_applied (F : FloatOps K) (s : MLESolver K)
    (base : K) (p : MLEParams K) :
    (∀ (team : String) (m : MatchResult),
      getAdaptiveLearningRate F s team base m =
        (if team ∈ s.leagueChangeTeams ∧ m.season = solverLatestSeason s then
          base * (s.options.simParams.leagueChangeLearningRate -
            (s.options.simParams.leagueChangeLearningRate - 1) *
              getTimeWeight F s.options.simParams (solverLatestSeason s)
                (solverLatestSeason s))
        else base)) ∧
    updateRatings F s base p =
      normalizeRatings (solverTeams s)
        { p with
          attackRatings := fun t =>
            if t ∈ solverTeams s then
              p.attackRatings t +
                getAdaptiveLearningRate F s t base (lastMatchFor s.archive t) *
                  attackGradient F s p t
            else p.attackRatings t
          defenseRatings := fun t =>
            if t ∈ solverTeams s then
              p.defenseRatings t +
                getAdaptiveLearningRate F s t base (lastMatchFor s.archive t) *
                  defenseGradient F s p t
            else p.defenseRatings t } := by
  constructor
  · intro team m
    unfold getAdaptiveLearningRate
    rfl
  · rfl

/-- Length of the character list of a string. -/
theorem toList_length (s : String) : s.toList.length = s.length := rfl

/-- A two-character digit run parses exactly when both characters are
digits. -/
theorem goDigits?_pair_isSome (c1 c2 : Char) :
    (goDigits? [c1, c2]).isSome ↔ (c1.isDigit ∧ c2.isDigit) := by
  by_cases h1 : c1.isDigit <;> by_cases h2 : c2.isDigit <;>
    simp [goDigits?, List.foldlM, h1, h2]

/-- A one-character digit run parses exactly when the character is a
digit. -/
theorem goDigits?_single_isSome (c : Char) :
    (goDigits? [c]).isSome ↔ c.isDigit := by
  by_cases h : c.isDigit <;> simp [goDigits?, List.foldlM, h]

/-- Atoi succeeds on a two-character string exactly when both characters
are digits or the first is a sign and the second a digit. -/
theorem goAtoi_pair_isSome (c1 c2 : Char) :
    (goAtoi [c1, c2]).isSome ↔
      ((c1.isDigit ∧ c2.isDigit) ∨ ((c1 = '+' ∨ c1 = '-') ∧ c2.isDigit)) := by
  by_cases h1 : c1 = '+'
  · subst h1
    rw [show goAtoi ['+', c2] = (goDigits? [c2]).map Int.ofNat from rfl,
      Option.isSome_map', goDigits?_single_isSome]
    simp
  · by_cases h2 : c1 = '-'
    · subst h2
      rw [show goAtoi ['-', c2] = (goDigits? [c2]).map (fun n => -Int.ofNat n) from rfl,
        Option.isSome_map', goDigits?_single_isSome]
      simp
    · have hg : goAtoi [c1, c2] = (goDigits? [c1, c2]).map Int.ofNat := by
        show (if c1 = '+' then Option.map Int.ofNat (goDigits? [c2])
          else if c1 = '-' then Option.map (fun n => -Int.ofNat n) (goDigits? [c2])
          else Option.map Int.ofNat (goDigits? [c1, c2])) =
            Option.map Int.ofNat (goDigits? [c1, c2])
        rw [if_neg h1, if_neg h2]
      rw [hg, Option.isSome_map', goDigits?_pair_isSome]
      simp [h1, h2]

/-- Shape of the season codes accepted by convertSeasonToYear, written
from the amended claim: four characters whose first two form an
optionally signed decimal integer (strconv.Atoi accepts a leading sign,
so a non-digit leading sign character does not make the parse fail). -/
def signedTwoDigitPrefix (s : String) : Prop :=
  s.length = 4 ∧
    match s.toList with
    | c1 :: c2 :: _ => (c1.isDigit ∧ c2.isDigit) ∨ ((c1 = '+' ∨ c1 = '-') ∧ c2.isDigit)
    | _ => False

/-- C3 (amended): the time weight equals
timeDecayBase ^ ((latestYear - seasonYear) * timeDecayPower) whenever
both season codes parse and 1 whenever either fails to parse, where a
code parses exactly when it has four characters whose first two form an
optionally signed decimal integer (not merely two leading digits). -/
theorem getTimeWeight_characterization (F : FloatOps K) (p : SimParams K)
    (latest season : String) :
    (getTimeWeight F p latest season =
      match convertSeasonToYear latest, convertSeasonToYear season with
      | some ly, some sy =>
        F.pow p.timeDecayBase (((ly - sy : Int) : K) * p.timeDecayPower)
      | _, _ => 1) ∧
    ((convertSeasonToYear season).isSome ↔ signedTwoDigitPrefix season) := by
  constructor
  · unfold getTimeWeight
    cases convertSeasonToYear latest <;> cases convertSeasonToYear season <;> rfl
  · by_cases hlen : season.length = 4
    · have hl4 : season.toList.length = 4 := by rw [toList_length, hlen]
      rcases hcs : season.toList with _ | ⟨c1, _ | ⟨c2, rest⟩⟩
      · rw [hcs] at hl4; simp at hl4
      · rw [hcs] at hl4; simp at hl4
      · have htake : season.toList.take 2 = [c1, c2] := by rw [hcs]; rfl
        unfold convertSeasonToYear signedTwoDigitPrefix
        rw [if_pos hlen, htake, hcs]
        simp [goAtoi_pair_isSome, hlen]
    · unfold convertSeasonToYear signedTwoDigitPrefix
      rw [if_neg hlen]
      simp [hlen]

/-- Decay parameters used by the C3 counterexample: base 2, power 1. -/
noncomputable def c3Params : SimParams ℝ :=
  { (DefaultSimParams : SimParams ℝ) with timeDecayBase := 2, timeDecayPower := 1 }

/-- C3 counterexample: the season code +324 has four characters and a
non-digit leading character, so the claim asserts its weight is exactly
1; but strconv.Atoi accepts the sign, the code parses to year 2003, and
against latest season 2425 (year 2024) with decay base 2 and power 1 the
weight is 2 ^ 21, not 1. -/
theorem timeWeight_signed_season_counterexample :
    ("+324" : String).length = 4 ∧ ¬ ('+' : Char).isDigit ∧
    getTimeWeight realFloatOps c3Params "2425" "+324" = (2 : ℝ) ^ (21 : ℕ) ∧
    getTimeWeight realFloatOps c3Params "2425" "+324" ≠ 1 := by
  have h1 : convertSeasonToYear "2425" = some 2024 := by decide
  have h2 : convertSeasonToYear "+324" = some 2003 := by decide
  have hw : getTimeWeight realFloatOps c3Params "2425" "+324" = (2 : ℝ) ^ (21 : ℕ) := by
    unfold getTimeWeight
    rw [h1, h2]
    show Real.rpow 2 (((2024 - 2003 : ℤ) : ℝ) * c3Params.timeDecayPower) = (2 : ℝ) ^ (21 : ℕ)
    have hp : c3Params.timeDecayPower = 1 := rfl
    rw [hp, mul_one]
    rw [show ((2024 - 2003 : ℤ) : ℝ) = ((21 : ℕ) : ℝ) by norm_num]
    exact Real.rpow_natCast 2 21
  refine ⟨rfl, by decide, hw, ?_⟩
  rw [hw]
  norm_num

/-- C8: request validation fails, and RunSimulation returns before any
optimisation work, exactly when the archive has fewer than 100 matches,
fewer than 10 distinct team names appear as home or away team, or some
handicap key is not among the observed teams; on archives passing all
three checks validation succeeds and the optimiser is run (and itself
always succeeds). -/
theorem validateRequest_characterization (F : FloatOps K) (req : MLERequest K) :
    (validateRequest req = none ↔
      (100 ≤ req.historicalData.length ∧
       10 ≤ (ExtractTeams req.historicalData).length ∧
       ∀ h ∈ req.handicaps, h.1 ∈ ExtractTeams req.historicalData)) ∧
    ((∃ p, RunSimulation F req = Except.ok p) ↔ validateRequest req = none) := by
  constructor
  · unfold validateRequest
    by_cases h0 : req.historicalData.length = 0
    · rw [if_pos h0]
      simp [h0]
    · rw [if_neg h0]
      by_cases h100 : req.historicalData.length < 100
      · rw [if_pos h100]
        simp [Nat.not_le.mpr h100]
      · rw [if_neg h100]
        by_cases h10 : (ExtractTeams req.historicalData).length < 10
        · rw [if_pos h10]
          simp [Nat.not_le.mpr h10]
        · rw [if_neg h10]
          by_cases hh : 0 < req.handicaps.length
          · rw [if_pos hh]
            rcases hf : req.handicaps.find?
                (fun h => !((ExtractTeams req.historicalData).contains h.1)) with _ | bad
            · simp only [hf]
              rw [List.find?_eq_none] at hf
              constructor
              · intro _
                refine ⟨Nat.not_lt.mp h100, Nat.not_lt.mp h10, fun h hmem => ?_⟩
                have := hf h hmem
                simpa using this
              · intro _; trivial
            · simp only [hf]
              have hbad := List.find?_some hf
              have hmem := List.mem_of_find?_eq_some hf
              constructor
              · intro hcon; exact absurd hcon (by simp)
              · intro hcl
                exfalso
                have := hcl.2.2 bad hmem
                simp [this] at hbad
          · rw [if_neg hh]
            have : req.handicaps = [] := List.length_eq_zero.mp (Nat.eq_zero_of_not_pos hh)
            simp [this, Nat.not_lt.mp h100, Nat.not_lt.mp h10]
  · unfold RunSimulation
    rcases hv : validateRequest req with _ | msg
    · simp [Optimize]
    · simp

/-- Log-likelihood value computed during 0-indexed gradient step j, that
is, the likelihood of the state after j+1 updates; the loop compares it
with the value of the previous step. -/
def seqLL (F : FloatOps K) (s : MLESolver K) (j : Nat) : K :=
  CalculateLogLikelihood F s (mleIterate F s j)

/-- Convergence test of step k: the likelihood moved by less than the
tolerance relative to the previous step. -/
def convAt (F : FloatOps K) (s : MLESolver K) (k : Nat) : Prop :=
  |seqLL F s (k + 1) - seqLL F s k| < s.options.simParams.tolerance

/-- Loop invariant of Optimize: starting step i with the state after i
updates and the likelihood of that state, given no step in [1, i)
converged, the loop stops at the first converging step k in
[max(i,1), M) reporting k+1 iterations, or exhausts the budget
unconverged. -/
theorem optimizeGo_spec (F : FloatOps K) (s : MLESolver K) :
    ∀ (r i : Nat), i + r = s.options.simParams.maxIterations →
    (∀ j, 1 ≤ j → j < i → ¬ convAt F s j) →
    (optimizeGo F s r i (mleIterate F s i) (seqLL F s i)).iterations ≤
        s.options.simParams.maxIterations ∧
      ((∃ k, 1 ≤ k ∧ k < s.options.simParams.maxIterations ∧ convAt F s k ∧
          (∀ j, 1 ≤ j → j < k → ¬ convAt F s j) ∧
          (optimizeGo F s r i (mleIterate F s i) (seqLL F s i)).converged = true ∧
          (optimizeGo F s r i (mleIterate F s i) (seqLL F s i)).iterations = k + 1) ∨
        ((∀ j, 1 ≤ j → j < s.options.simParams.maxIterations → ¬ convAt F s j) ∧
          (optimizeGo F s r i (mleIterate F s i) (seqLL F s i)).converged = false ∧
          (optimizeGo F s r i (mleIterate F s i) (seqLL F s i)).iterations =
            s.options.simParams.maxIterations)) := by
  intro r
  induction r with
  | zero =>
    intro i hi hprev
    have hiM : i = s.options.simParams.maxIterations := by omega
    subst hiM
    refine ⟨le_refl _, Or.inr ⟨hprev, rfl, rfl⟩⟩
  | succ r ih =>
    intro i hi hprev
    have hstep : optimizeGo F s (r + 1) i (mleIterate F s i) (seqLL F s i) =
        if 0 < i ∧ |seqLL F s (i + 1) - seqLL F s i| < s.options.simParams.tolerance then
          { mleIterate F s (i + 1) with
            logLikelihood := seqLL F s (i + 1), iterations := i + 1, converged := true }
        else optimizeGo F s r (i + 1) (mleIterate F s (i + 1)) (seqLL F s (i + 1)) := rfl
    by_cases hc : 0 < i ∧ |seqLL F s (i + 1) - seqLL F s i| < s.options.simParams.tolerance
    · rw [hstep, if_pos hc]
      refine ⟨by simpa using Nat.succ_le_of_lt (by omega), Or.inl ⟨i, hc.1, by omega, hc.2,
        fun j h1 h2 => hprev j h1 h2, rfl, rfl⟩⟩
    · rw [hstep, if_neg hc]
      refine ih (i + 1) (by omega) (fun j h1 h2 => ?_)
      rcases Nat.lt_succ_iff_lt_or_eq.mp h2 with h | h
      · exact hprev j h1 h
      · subst h
        intro hconv
        exact hc ⟨h1, hconv⟩

/-- C2: Optimize always returns without error; it performs at most
max_iterations gradient steps, declares convergence with Iterations equal
to k+1 at the first 0-indexed step k with k at least 1 whose likelihood
moved by less than the tolerance relative to the previous step (so only
after at least one full step), and otherwise returns successfully with
Converged false and Iterations equal to max_iterations. -/
theorem optimize_returns_characterized (F : FloatOps K) (s : MLESolver K) :
    ∃ p, Optimize F s = Except.ok p ∧
      p.iterations ≤ s.options.simParams.maxIterations ∧
      ((∃ k, 1 ≤ k ∧ k < s.options.simParams.maxIterations ∧ convAt F s k ∧
          (∀ j, 1 ≤ j → j < k → ¬ convAt F s j) ∧
          p.converged = true ∧ p.iterations = k + 1) ∨
        ((∀ j, 1 ≤ j → j < s.options.simParams.maxIterations → ¬ convAt F s j) ∧
          p.converged = false ∧
          p.iterations = s.options.simParams.maxIterations)) := by
  refine ⟨optimizeGo F s s.options.simParams.maxIterations 0 (initParams s)
      (CalculateLogLikelihood F s (initParams s)), rfl, ?_⟩
  have h := optimizeGo_spec F s s.options.simParams.maxIterations 0 (by omega)
    (fun j h1 h2 => absurd h2 (by omega))
  exact h

/-- C5: the negative-lambda guard returns 0, but at the boundary lambda =
0 the Knuth branch is entered with target exp(-0) = 1, the while loop is
skipped because the initial product 1 does not exceed 1, and the function
returns k - 1 = -1 -- a negative value, contradicting the claim (and the
spec) that every return is a non-negative integer.  The draw stream is
irrelevant since no draw is consumed. -/
theorem poissonSample_zero_lambda_negative :
    PoissonSample realFloatOps (fun _ => 1 / 2) 0 100 (-1) = some 0 ∧
    PoissonSample realFloatOps (fun _ => 1 / 2) 0 100 0 = some (-1) := by
  constructor
  · unfold PoissonSample
    rw [if_pos (by norm_num : (-1 : ℝ) < 0)]
  · unfold PoissonSample
    rw [if_neg (lt_irrefl (0 : ℝ)), if_pos (by norm_num : (0 : ℝ) < 12)]
    have hL : realFloatOps.exp (-(0 : ℝ)) = 1 := by
      simp [realFloatOps]
    rw [hL]
    show knuthLoop (fun _ => 1 / 2) 1 (99 + 1) 0 0 1 = some (-1)
    unfold knuthLoop
    rw [if_neg (lt_irrefl (1 : ℝ))]
    rfl

/-- A run of digit characters folds to its decimal value under the
monadic Atoi accumulator. -/
theorem foldlM_digits (cs : List Char) (hd : ∀ c ∈ cs, c.isDigit) : ∀ acc : Nat,
    cs.foldlM (fun acc c => if c.isDigit then some (acc * 10 + (c.toNat - 48)) else none) acc =
      some (cs.foldl (fun a c => a * 10 + (c.toNat - 48)) acc) := by
  induction cs with
  | nil => intro acc; rfl
  | cons c t ih =>
    intro acc
    have hc := hd c (List.mem_cons_self c t)
    simp only [List.foldlM, List.foldl, if_pos hc]
    exact ih (fun x hx => hd x (List.mem_cons_of_mem _ hx)) _

/-- A nonempty all-digit run parses to its decimal value. -/
theorem goDigits?_all_digits (cs : List Char) (hne : cs ≠ [])
    (hd : ∀ c ∈ cs, c.isDigit) : goDigits? cs = some (digitsVal cs) := by
  unfold goDigits? digitsVal
  rw [if_neg (by simpa using hne)]
  exact foldlM_digits cs hd 0

/-- Atoi on a nonempty all-digit string yields its decimal value. -/
theorem goAtoi_all_digits (cs : List Char) (hne : cs ≠ [])
    (hd : ∀ c ∈ cs, c.isDigit) : goAtoi cs = some (Int.ofNat (digitsVal cs)) := by
  rcases cs with _ | ⟨c, rest⟩
  · exact absurd rfl hne
  · have hc := hd c (List.mem_cons_self c rest)
    have hplus : c ≠ '+' := by intro h; rw [h] at hc; exact absurd hc (by decide)
    have hminus : c ≠ '-' := by intro h; rw [h] at hc; exact absurd hc (by decide)
    show (if c = '+' then (goDigits? rest).map Int.ofNat
      else if c = '-' then (goDigits? rest).map (fun n => -Int.ofNat n)
      else (goDigits? (c :: rest)).map Int.ofNat) = some (Int.ofNat (digitsVal (c :: rest)))
    rw [if_neg hplus, if_neg hminus, goDigits?_all_digits (c :: rest) hne hd]
    rfl

/-- A token list of valid tokens parses without error to the left-to-right
expansion of counts and values. -/
theorem parsePayoffParts_valid (parts : List String)
    (h : ∀ t ∈ parts, validToken t = true) :
    parsePayoffParts (K := K) parts =
      Except.ok (parts.flatMap
        (fun t => List.replicate (tokenCount t) (tokenValue (K := K) t))) := by
  induction parts with
  | nil => rfl
  | cons e rest ih =>
    have he := h e (List.mem_cons_self e rest)
    have hrest := ih (fun t ht => h t (List.mem_cons_of_mem _ ht))
    unfold validToken at he
    unfold parsePayoffParts
    rcases hsp : goSplit 'x' e with _ | ⟨t1, _ | ⟨t2, more⟩⟩
    · rw [hsp] at he; exact absurd he (by simp)
    · rw [hsp] at he
      obtain ⟨r, hr⟩ := Option.isSome_iff_exists.mp he
      have hv : goParseFloat? (K := K) t1 = some (decimalValue r) := by
        unfold goParseFloat?
        rw [hr]
        rfl
      have hcnt : tokenCount e = 1 := by unfold tokenCount; rw [hsp]
      have hval : tokenValue (K := K) e = decimalValue r := by
        unfold tokenValue
        rw [hsp]
        show (goParseFloat? (K := K) t1).getD 0 = decimalValue r
        rw [hv]
        rfl
      simp only [hv, hrest, List.flatMap_cons, hcnt, hval]
    · rcases more with _ | _
      · rw [hsp] at he
        have hparts := he
        simp only [Bool.and_eq_true, Bool.not_eq_true'] at hparts
        obtain ⟨⟨⟨hne, hdig⟩, hge⟩, hfl⟩ := hparts
        have hne' : t1.toList ≠ [] := by
          intro hnil
          rw [hnil] at hne
          exact absurd hne (by simp)
        have hdig' : ∀ c ∈ t1.toList, c.isDigit := List.all_eq_true.mp hdig
        have hat : goAtoi t1.toList = some (Int.ofNat (digitsVal t1.toList)) :=
          goAtoi_all_digits _ hne' hdig'
        obtain ⟨r, hr⟩ := Option.isSome_iff_exists.mp hfl
        have hv : goParseFloat? (K := K) t2 = some (decimalValue r) := by
          unfold goParseFloat?
          rw [hr]
          rfl
        have hcnt : tokenCount e = digitsVal t1.toList := by
          unfold tokenCount
          rw [hsp]
          show ((goAtoi t1.toList).getD 0).toNat = digitsVal t1.toList
          rw [hat]
          rfl
        have hval : tokenValue (K := K) e = decimalValue r := by
          unfold tokenValue
          rw [hsp]
          show (goParseFloat? (K := K) t2).getD 0 = decimalValue r
          rw [hv]
          rfl
        simp only [hat, hv, hrest, List.flatMap_cons, hcnt, hval]
        rfl
      · rw [hsp] at he; exact absurd he (by simp)

/-- C7: on every valid payoff expression (pipe-separated tokens, each a
bare decimal number or NxV with N a positive all-digit count) the parser
succeeds, producing exactly the left-to-right expansion in which each
token contributes its count of copies of its value to successive
positions, and the vector length is the sum of the token counts. -/
theorem parsePayoff_valid_expansion (s : String) (h : validPayoff s = true) :
    parsePayoff (K := K) s = Except.ok (payoffExpansion (K := K) s) ∧
    (payoffExpansion (K := K) s).length = ((goSplit '|' s).map tokenCount).sum := by
  constructor
  · unfold parsePayoff payoffExpansion
    exact parsePayoffParts_valid _ (List.all_eq_true.mp h)
  · unfold payoffExpansion
    rw [List.length_flatMap]
    congr 1
    simp [Function.comp]

/-- Witness for C7 at the worked example of the specification: the
expression 1|4x0.25|15x0 is valid, parses to the expansion, and that
expansion is the vector of a single 1, four 0.25 entries and fifteen 0
entries, of length 20. -/
theorem parsePayoff_valid_expansion_witness :
    validPayoff "1|4x0.25|15x0" = true ∧
    parsePayoff (K := ℚ) "1|4x0.25|15x0" =
      Except.ok (payoffExpansion (K := ℚ) "1|4x0.25|15x0") ∧
    (payoffExpansion (K := ℚ) "1|4x0.25|15x0").length = 20 ∧
    payoffExpansion (K := ℚ) "1|4x0.25|15x0" =
      1 :: (List.replicate 4 (1 / 4) ++ List.replicate 15 0) := by
  have h : validPayoff "1|4x0.25|15x0" = true := by decide
  have hsplit : goSplit '|' "1|4x0.25|15x0" = ["1", "4x0.25", "15x0"] := by decide
  have hs1 : goSplit 'x' "1" = ["1"] := by decide
  have hs2 : goSplit 'x' "4x0.25" = ["4", "0.25"] := by decide
  have hs3 : goSplit 'x' "15x0" = ["15", "0"] := by decide
  have hc : tokenCount "1" = 1 ∧ tokenCount "4x0.25" = 4 ∧ tokenCount "15x0" = 15 := by decide
  have hr1 : goParseFloatRepr? "1" = some ⟨false, ['1'], []⟩ := by decide
  have hr2 : goParseFloatRepr? "0.25" = some ⟨false, ['0'], ['2', '5']⟩ := by decide
  have hr3 : goParseFloatRepr? "0" = some ⟨false, ['0'], []⟩ := by decide
  have hv1 : tokenValue (K := ℚ) "1" = 1 := by
    unfold tokenValue
    rw [hs1]
    show (goParseFloat? (K := ℚ) "1").getD 0 = 1
    unfold goParseFloat?
    rw [hr1]
    show decimalValue ⟨false, ['1'], []⟩ = (1 : ℚ)
    unfold decimalValue
    rw [show digitsVal ['1'] = 1 by decide, show digitsVal [] = 0 by decide]
    norm_num
  have hv2 : tokenValue (K := ℚ) "4x0.25" = 1 / 4 := by
    unfold tokenValue
    rw [hs2]
    show (goParseFloat? (K := ℚ) "0.25").getD 0 = 1 / 4
    unfold goParseFloat?
    rw [hr2]
    show decimalValue ⟨false, ['0'], ['2', '5']⟩ = (1 / 4 : ℚ)
    unfold decimalValue
    rw [show digitsVal ['0'] = 0 by decide, show digitsVal ['2', '5'] = 25 by decide]
    norm_num
  have hv3 : tokenValue (K := ℚ) "15x0" = 0 := by
    unfold tokenValue
    rw [hs3]
    show (goParseFloat? (K := ℚ) "0").getD 0 = 0
    unfold goParseFloat?
    rw [hr3]
    show decimalValue ⟨false, ['0'], []⟩ = (0 : ℚ)
    unfold decimalValue
    rw [show digitsVal ['0'] = 0 by decide, show digitsVal [] = 0 by decide]
    norm_num
  have hexp : payoffExpansion (K := ℚ) "1|4x0.25|15x0" =
      1 :: (List.replicate 4 (1 / 4) ++ List.replicate 15 0) := by
    unfold payoffExpansion
    rw [hsplit]
    simp only [List.flatMap_cons, List.flatMap_nil, hc.1, hc.2.1, hc.2.2, hv1, hv2, hv3]
    rfl
  refine ⟨h, (parsePayoff_valid_expansion _ h).1,
    (parsePayoff_valid_expansion _ h).2.trans (by decide), hexp⟩

/-- Dropping the index from an index-inequality guard: when membership in
the pair list makes index equality and value equality coincide, the guard
can test the values instead. -/
theorem flatMap_drop_idx {β : Type} (G : String → List β) (h2 : String) (i : Nat) :
    ∀ (E : List (Nat × String)), (∀ ja ∈ E, (i = ja.1 ↔ h2 = ja.2)) →
    E.flatMap (fun ja => if i ≠ ja.1 then G ja.2 else []) =
      (E.map Prod.snd).flatMap (fun a2 => if h2 ≠ a2 then G a2 else []) := by
  intro E
  induction E with
  | nil => intro _; rfl
  | cons p t ih =>
    intro hE
    have hp := hE p (List.mem_cons_self p t)
    simp only [List.flatMap_cons, List.map_cons]
    rw [ih (fun q hq => hE q (List.mem_cons_of_mem _ hq))]
    congr 1
    by_cases hip : i = p.1
    · rw [if_neg (by simpa using hip), if_neg (by simpa using hp.mp hip)]
    · rw [if_pos (by simpa using hip), if_pos (by simpa using fun h => hip (hp.mpr h))]

/-- On a duplicate-free team list the index-distinctness test of the
fixture enumeration coincides with name distinctness, so the double
enumeration loop is a plain double flat map over names. -/
theorem calcRemainingFixtures_nodup (teamNames : List String) (events : List Event)
    (rounds : Nat) (hnd : teamNames.Nodup) :
    calcRemainingFixtures teamNames events rounds =
      teamNames.flatMap (fun h2 => teamNames.flatMap (fun a2 =>
        if h2 ≠ a2 then
          List.replicate (rounds - playedCount events (h2 ++ " vs " ++ a2))
            (h2 ++ " vs " ++ a2)
        else [])) := by
  unfold calcRemainingFixtures
  have hiff : ∀ p ∈ teamNames.enum, ∀ q ∈ teamNames.enum, (p.1 = q.1 ↔ p.2 = q.2) := by
    intro p hp q hq
    rw [List.mem_enum_iff_getElem?] at hp hq
    have hpl : p.1 < teamNames.length := (List.getElem?_eq_some.mp hp).1
    have hql : q.1 < teamNames.length := (List.getElem?_eq_some.mp hq).1
    have hpe : teamNames[p.1] = p.2 := (List.getElem?_eq_some.mp hp).2
    have hqe : teamNames[q.1] = q.2 := (List.getElem?_eq_some.mp hq).2
    constructor
    · intro h
      rw [← hpe, ← hqe]
      congr 1
    · intro h
      have : teamNames[p.1] = teamNames[q.1] := by rw [hpe, hqe, h]
      exact (hnd.getElem_inj_iff).mp this
  have hstep : teamNames.enum.map
      (fun ih => teamNames.enum.flatMap (fun ja =>
        if ih.1 ≠ ja.1 then
          List.replicate (rounds - playedCount events (ih.2 ++ " vs " ++ ja.2))
            (ih.2 ++ " vs " ++ ja.2)
        else [])) =
      teamNames.enum.map (fun ih => teamNames.flatMap (fun a2 =>
        if ih.2 ≠ a2 then
          List.replicate (rounds - playedCount events (ih.2 ++ " vs " ++ a2))
            (ih.2 ++ " vs " ++ a2)
        else [])) := by
    refine List.map_congr_left (fun p hp => ?_)
    have := flatMap_drop_idx
      (fun a2 => List.replicate (rounds - playedCount events (p.2 ++ " vs " ++ a2))
        (p.2 ++ " vs " ++ a2)) p.2 p.1 teamNames.enum
      (fun q hq => hiff p hp q hq)
    rw [this, List.enum_map_snd]
  calc teamNames.enum.flatMap (fun ih => teamNames.enum.flatMap (fun ja =>
        if ih.1 ≠ ja.1 then
          List.replicate (rounds - playedCount events (ih.2 ++ " vs " ++ ja.2))
            (ih.2 ++ " vs " ++ ja.2)
        else []))
      = (teamNames.enum.map (fun ih => teamNames.flatMap (fun a2 =>
          if ih.2 ≠ a2 then
            List.replicate (rounds - playedCount events (ih.2 ++ " vs " ++ a2))
              (ih.2 ++ " vs " ++ a2)
          else []))).flatten := by
        rw [← hstep, List.flatMap_def]
    _ = teamNames.flatMap (fun h2 => teamNames.flatMap (fun a2 =>
          if h2 ≠ a2 then
            List.replicate (rounds - playedCount events (h2 ++ " vs " ++ a2))
              (h2 ++ " vs " ++ a2)
          else [])) := by
        rw [← List.flatMap_def, ← List.enum_map_snd teamNames, List.flatMap_map]
        rw [List.enum_map_snd]

/-- Sum of an indicator map over a duplicate-free list containing the
distinguished element once. -/
theorem sum_if_single (A : String) (c : Nat) :
    ∀ (l : List String), l.Nodup → A ∈ l →
    (l.map (fun x => if x = A then c else 0)).sum = c := by
  intro l
  induction l with
  | nil => intro _ h; exact absurd h (List.not_mem_nil A)
  | cons a t ih =>
    intro hnd hmem
    simp only [List.map_cons, List.sum_cons]
    by_cases ha : a = A
    · subst ha
      rw [if_pos rfl]
      have hnotin : a ∉ t := (List.nodup_cons.mp hnd).1
      have hz : (t.map (fun x => if x = a then c else 0)).sum = 0 := by
        refine List.sum_eq_zero (fun x hx => ?_)
        obtain ⟨y, hy, rfl⟩ := List.mem_map.mp hx
        rw [if_neg (fun h => hnotin (by rw [← h]; exact hy))]
      rw [hz, Nat.add_zero]
    · rw [if_neg ha]
      have hmem2 : A ∈ t := by
        rcases List.mem_cons.mp hmem with h | h
        · exact absurd h.symm ha
        · exact h
      rw [ih (List.nodup_cons.mp hnd).2 hmem2, Nat.zero_add]

/-- Sum of a constant over the other elements of a duplicate-free list. -/
theorem sum_if_ne (h2 : String) (r : Nat) :
    ∀ (l : List String), l.Nodup → h2 ∈ l →
    (l.map (fun x => if h2 ≠ x then r else 0)).sum = (l.length - 1) * r := by
  intro l
  induction l with
  | nil => intro _ h; exact absurd h (List.not_mem_nil h2)
  | cons a t ih =>
    intro hnd hmem
    simp only [List.map_cons, List.sum_cons]
    by_cases ha : a = h2
    · subst ha
      rw [if_neg (by simp)]
      have hnotin : a ∉ t := (List.nodup_cons.mp hnd).1
      have hconst : (t.map (fun x => if a ≠ x then r else 0)).sum =
          (t.map (fun _ => r)).sum := by
        refine congrArg List.sum (List.map_congr_left (fun x hx => ?_))
        rw [if_pos (fun h => hnotin (by rw [h]; exact hx))]
      rw [hconst, List.map_const', List.sum_replicate, smul_eq_mul]
      simp
    · have hmem2 : h2 ∈ t := by
        rcases List.mem_cons.mp hmem with h | h
        · exact absurd h.symm ha
        · exact h
      have hlen : ∃ m, t.length = m + 1 := by
        rcases t with _ | ⟨b, t2⟩
        · exact absurd hmem2 (List.not_mem_nil h2)
        · exact ⟨t2.length, rfl⟩
      obtain ⟨m, hm⟩ := hlen
      rw [if_pos (fun h => ha h.symm), ih (List.nodup_cons.mp hnd).2 hmem2, hm]
      simp only [List.length_cons, hm, Nat.add_sub_cancel]
      rw [Nat.succ_mul]
      exact Nat.add_comm r (m * r)

/-- C6 (amended): for a duplicate-free authoritative team list whose
fixture strings are unambiguous, the enumeration contains, for every
ordered pair of distinct listed teams, exactly max(R - count, 0) copies
of the fixture string -- truncated rather than signed subtraction, since
a fixture already played more than R times contributes nothing -- and
with zero played events the enumeration has n * (n - 1) * R entries. -/
theorem calcRemainingFixtures_count (teamNames : List String) (events : List Event)
    (rounds : Nat) (hnd : teamNames.Nodup)
    (hinj : ∀ t1 ∈ teamNames, ∀ t2 ∈ teamNames, ∀ t3 ∈ teamNames, ∀ t4 ∈ teamNames,
      t1 ++ " vs " ++ t2 = t3 ++ " vs " ++ t4 → t1 = t3 ∧ t2 = t4)
    (hteam aeteam : String) (hh : hteam ∈ teamNames) (ha : aeteam ∈ teamNames)
    (hne : hteam ≠ aeteam) :
    List.count (hteam ++ " vs " ++ aeteam)
        (calcRemainingFixtures teamNames events rounds) =
      rounds - playedCount events (hteam ++ " vs " ++ aeteam) ∧
    (calcRemainingFixtures teamNames [] rounds).length =
      teamNames.length * (teamNames.length - 1) * rounds := by
  constructor
  · rw [calcRemainingFixtures_nodup teamNames events rounds hnd]
    rw [List.count_flatMap]
    have houter : (teamNames.map
        (List.count (hteam ++ " vs " ++ aeteam) ∘ fun h2 => teamNames.flatMap (fun a2 =>
          if h2 ≠ a2 then
            List.replicate (rounds - playedCount events (h2 ++ " vs " ++ a2))
              (h2 ++ " vs " ++ a2)
          else []))) =
        teamNames.map (fun h2 =>
          if h2 = hteam then rounds - playedCount events (hteam ++ " vs " ++ aeteam)
          else 0) := by
      refine List.map_congr_left (fun h2 hmem2 => ?_)
      show List.count (hteam ++ " vs " ++ aeteam) (teamNames.flatMap (fun a2 =>
        if h2 ≠ a2 then
          List.replicate (rounds - playedCount events (h2 ++ " vs " ++ a2))
            (h2 ++ " vs " ++ a2)
        else [])) = _
      rw [List.count_flatMap]
      have hinner : (teamNames.map
          (List.count (hteam ++ " vs " ++ aeteam) ∘ fun a2 =>
            if h2 ≠ a2 then
              List.replicate (rounds - playedCount events (h2 ++ " vs " ++ a2))
                (h2 ++ " vs " ++ a2)
            else [])) =
          teamNames.map (fun a2 =>
            if h2 = hteam ∧ a2 = aeteam then
              rounds - playedCount events (hteam ++ " vs " ++ aeteam)
            else 0) := by
        refine List.map_congr_left (fun a2 hmema => ?_)
        show List.count (hteam ++ " vs " ++ aeteam)
          (if h2 ≠ a2 then
            List.replicate (rounds - playedCount events (h2 ++ " vs " ++ a2))
              (h2 ++ " vs " ++ a2)
          else []) = _
        by_cases hcase : h2 = hteam ∧ a2 = aeteam
        · obtain ⟨rfl, rfl⟩ := hcase
          rw [if_pos hne, if_pos ⟨rfl, rfl⟩, List.count_replicate, if_pos (by simp)]
        · rw [if_neg hcase]
          by_cases hd : h2 ≠ a2
          · rw [if_pos hd, List.count_replicate, if_neg ?_]
            intro hbeq
            have heq : h2 ++ " vs " ++ a2 = hteam ++ " vs " ++ aeteam := by
              simpa using hbeq
            exact hcase ⟨(hinj h2 hmem2 a2 hmema hteam hh aeteam ha heq).1,
              (hinj h2 hmem2 a2 hmema hteam hh aeteam ha heq).2⟩
          · rw [if_neg hd]
            rfl
      rw [hinner]
      by_cases hcase : h2 = hteam
      · subst hcase
        simp only [true_and]
        exact sum_if_single aeteam _ teamNames hnd ha
      · rw [if_neg hcase]
        refine List.sum_eq_zero (fun x hx => ?_)
        obtain ⟨y, hy, rfl⟩ := List.mem_map.mp hx
        rw [if_neg (fun h => hcase h.1)]
    rw [houter]
    exact sum_if_single hteam _ teamNames hnd hh
  · rw [calcRemainingFixtures_nodup teamNames [] rounds hnd]
    rw [List.length_flatMap]
    have houter : (teamNames.map
        (List.length ∘ fun h2 => teamNames.flatMap (fun a2 =>
          if h2 ≠ a2 then
            List.replicate (rounds - playedCount [] (h2 ++ " vs " ++ a2))
              (h2 ++ " vs " ++ a2)
          else []))) =
        teamNames.map (fun _ => (teamNames.length - 1) * rounds) := by
      refine List.map_congr_left (fun h2 hmem2 => ?_)
      show (teamNames.flatMap (fun a2 =>
        if h2 ≠ a2 then
          List.replicate (rounds - playedCount [] (h2 ++ " vs " ++ a2))
            (h2 ++ " vs " ++ a2)
        else [])).length = _
      rw [List.length_flatMap]
      have hinner : (teamNames.map (List.length ∘ fun a2 =>
          if h2 ≠ a2 then
            List.replicate (rounds - playedCount [] (h2 ++ " vs " ++ a2))
              (h2 ++ " vs " ++ a2)
          else [])) =
          teamNames.map (fun a2 => if h2 ≠ a2 then rounds else 0) := by
        refine List.map_congr_left (fun a2 hmema => ?_)
        show (if h2 ≠ a2 then
            List.replicate (rounds - playedCount [] (h2 ++ " vs " ++ a2))
              (h2 ++ " vs " ++ a2)
          else []).length = _
        by_cases hd : h2 ≠ a2
        · rw [if_pos hd, if_pos hd, List.length_replicate]
          have : playedCount [] (h2 ++ " vs " ++ a2) = 0 := rfl
          rw [this, Nat.sub_zero]
        · rw [if_neg hd, if_neg hd]
          rfl
      rw [hinner]
      exact sum_if_ne h2 rounds teamNames hnd hmem2
    rw [houter, List.map_const', List.sum_replicate, smul_eq_mul, Nat.mul_assoc]

/-- C6 counterexample: with one round and a fixture already played twice
the enumeration contains zero copies, not the R - count = -1 copies the
claim demands. -/
theorem calcRemainingFixtures_overplayed_counterexample :
    getRounds "ENG1" = 1 ∧
    playedCount
      [{ name := "Alpha vs Beta", date := "2024-08-10", score := [1, 0] },
       { name := "Alpha vs Beta", date := "2024-09-10", score := [2, 1] }]
      "Alpha vs Beta" = 2 ∧
    (List.count "Alpha vs Beta"
      (calcRemainingFixtures ["Alpha", "Beta"]
        [{ name := "Alpha vs Beta", date := "2024-08-10", score := [1, 0] },
         { name := "Alpha vs Beta", date := "2024-09-10", score := [2, 1] }]
        (getRounds "ENG1")) : Int) ≠ (1 : Int) - 2 := by
  refine ⟨by decide, by decide, by decide⟩

/-- Witness for C6 on a three-team Scottish league with one played
fixture: the pair (Alpha, Beta) has 2 - 1 = 1 remaining copy, and with no
events the enumeration has 3 * 2 * 2 = 12 entries. -/
theorem calcRemainingFixtures_count_witness :
    List.count ("Alpha" ++ " vs " ++ "Beta")
        (calcRemainingFixtures ["Alpha", "Beta", "Gamma"]
          [{ name := "Alpha vs Beta", date := "2024-08-10", score := [1, 0] }]
          (getRounds "SCO1")) =
      getRounds "SCO1" - playedCount
        [{ name := "Alpha vs Beta", date := "2024-08-10", score := [1, 0] }]
        ("Alpha" ++ " vs " ++ "Beta") ∧
    (calcRemainingFixtures ["Alpha", "Beta", "Gamma"] [] (getRounds "SCO1")).length =
      3 * (3 - 1) * getRounds "SCO1" :=
  calcRemainingFixtures_count ["Alpha", "Beta", "Gamma"]
    [{ name := "Alpha vs Beta", date := "2024-08-10", score := [1, 0] }]
    (getRounds "SCO1") (by decide) (by decide) "Alpha" "Beta" (by decide) (by decide)
    (by decide)

/-- A filter map whose function succeeds on every element keeps the
length. -/
theorem length_filterMap_all_some {A B : Type} (f : A → Option B) :
    ∀ l : List A, (∀ x ∈ l, (f x).isSome) → (l.filterMap f).length = l.length := by
  intro l
  induction l with
  | nil => intro _; rfl
  | cons a t ih =>
    intro h
    obtain ⟨b, hb⟩ := Option.isSome_iff_exists.mp (h a (List.mem_cons_self a t))
    rw [List.filterMap_cons, hb]
    simp [ih (fun x hx => h x (List.mem_cons_of_mem _ hx))]

/-- The sorted per-path array is a permutation of the selected entries, so
every selected index is assigned exactly one finishing position below the
subset size. -/
theorem positionOf_lt (sp : SimPoints K) (sel : List Nat) (path : Nat) (j : Nat)
    (hj : j < sel.length) : positionOf sp sel path j < sel.length := by
  have hperm : (sortedEntries sp sel path).Perm (pathEntries sp sel path) :=
    List.mergeSort_perm _ _
  have hlenp : (pathEntries sp sel path).length = sel.length := by
    unfold pathEntries
    rw [List.length_map, List.enum_length]
  have henum : (j, sel.get ⟨j, hj⟩) ∈ sel.enum := by
    rw [List.mem_enum_iff_getElem?]
    exact List.getElem?_eq_getElem hj
  have hmemp : (j, sp.points (sel.get ⟨j, hj⟩) path) ∈ pathEntries sp sel path :=
    List.mem_map.mpr ⟨(j, sel.get ⟨j, hj⟩), henum, rfl⟩
  have hmems : (j, sp.points (sel.get ⟨j, hj⟩) path) ∈ sortedEntries sp sel path :=
    hperm.mem_iff.mpr hmemp
  have hlt : positionOf sp sel path j < (sortedEntries sp sel path).length :=
    List.findIdx_lt_length_of_exists ⟨(j, sp.points (sel.get ⟨j, hj⟩) path), hmems, by simp⟩
  rw [hperm.length_eq, hlenp] at hlt
  exact hlt

/-- C10: whenever NPaths is at least 1 and every requested name occurs in
the points matrix, the probability vector returned for a requested team
has length equal to the subset size, every entry is a non-negative
multiple of 1/NPaths, and the entries sum to exactly 1, because each path
assigns the team exactly one finishing position. -/
theorem positionProbabilities_distribution (sp : SimPoints K) (subset : List String)
    (hN : 1 ≤ sp.nPaths) (hsub : ∀ n ∈ subset, n ∈ sp.teamNames) (name : String)
    (hname : name ∈ subset) :
    ∃ probs, positionProbabilities sp subset name = some probs ∧
      probs.length = subset.length ∧
      (∀ q ∈ probs, 0 ≤ q ∧ ∃ m : Nat, q = (m : K) / (sp.nPaths : K)) ∧
      probs.sum = 1 := by
  have hNne : (sp.nPaths : K) ≠ 0 := Nat.cast_ne_zero.mpr (by omega)
  have hfoundAll : ∀ n ∈ subset, (getTeamIndex sp n).isSome := by
    intro n hn
    unfold getTeamIndex
    rw [List.findIdx?_isSome, List.any_eq_true]
    exact ⟨n, hsub n hn, by simp⟩
  obtain ⟨idx, hidx⟩ := Option.isSome_iff_exists.mp (hfoundAll name hname)
  have hselLen : (selectedIndices sp subset).length = subset.length :=
    length_filterMap_all_some _ subset hfoundAll
  have hidxMem : idx ∈ selectedIndices sp subset := by
    unfold selectedIndices
    exact List.mem_filterMap.mpr ⟨name, hname, hidx⟩
  have hfind : ((selectedIndices sp subset).findIdx? (fun s => s == idx)).isSome := by
    rw [List.findIdx?_isSome, List.any_eq_true]
    exact ⟨idx, hidxMem, by simp⟩
  obtain ⟨j, hj⟩ := Option.isSome_iff_exists.mp hfind
  obtain ⟨hjlt, -⟩ := List.findIdx?_eq_some_iff_getElem.mp hj
  refine ⟨probsFor sp (selectedIndices sp subset) j, ?_, ?_, ?_, ?_⟩
  · unfold positionProbabilities
    simp only [if_pos hname, hidx, hj]
  · unfold probsFor
    rw [List.length_map, List.length_range, hselLen]
  · intro q hq
    unfold probsFor at hq
    obtain ⟨pos, hpos, rfl⟩ := List.mem_map.mp hq
    constructor
    · refine Finset.sum_nonneg (fun path _ => ?_)
      by_cases hc : positionOf sp (selectedIndices sp subset) path j = pos
      · rw [if_pos hc]
        exact div_nonneg zero_le_one (Nat.cast_nonneg _)
      · rw [if_neg hc]
    · refine ⟨(Finset.filter
        (fun path => positionOf sp (selectedIndices sp subset) path j = pos)
        (Finset.range sp.nPaths)).card, ?_⟩
      rw [← Finset.sum_filter, Finset.sum_const, nsmul_eq_mul, mul_one_div]
  · unfold probsFor
    have hconv : ((List.range (selectedIndices sp subset).length).map
        (fun pos => ∑ path ∈ Finset.range sp.nPaths,
          if positionOf sp (selectedIndices sp subset) path j = pos then
            (1 : K) / (sp.nPaths : K)
          else 0)).sum =
        ∑ pos ∈ Finset.range (selectedIndices sp subset).length,
          ∑ path ∈ Finset.range sp.nPaths,
            if positionOf sp (selectedIndices sp subset) path j = pos then
              (1 : K) / (sp.nPaths : K)
            else 0 := rfl
    rw [hconv, Finset.sum_comm]
    have hrow : ∀ path ∈ Finset.range sp.nPaths,
        (∑ pos ∈ Finset.range (selectedIndices sp subset).length,
          if positionOf sp (selectedIndices sp subset) path j = pos then
            (1 : K) / (sp.nPaths : K)
          else 0) = 1 / (sp.nPaths : K) := by
      intro path _
      rw [Finset.sum_ite_eq (Finset.range (selectedIndices sp subset).length)
        (positionOf sp (selectedIndices sp subset) path j)
        (fun _ => (1 : K) / (sp.nPaths : K))]
      rw [if_pos (Finset.mem_range.mpr (positionOf_lt sp _ path j hjlt))]
    rw [Finset.sum_congr rfl hrow, Finset.sum_const, Finset.card_range, nsmul_eq_mul,
      mul_one_div, div_self hNne]

/-- Concrete two-team one-path points matrix for the C10 witness. -/
def c10SimPoints : SimPoints ℚ :=
  { nPaths := 1
    teamNames := ["A", "B"]
    points := fun t _ => if t = 0 then 5 else 3 }

/-- Witness for C10 at a concrete two-team matrix with one path. -/
theorem positionProbabilities_distribution_witness :
    ∃ probs, positionProbabilities c10SimPoints ["A", "B"] "A" = some probs ∧
      probs.length = (["A", "B"] : List String).length ∧
      (∀ q ∈ probs, 0 ≤ q ∧ ∃ m : Nat, q = (m : ℚ) / (c10SimPoints.nPaths : ℚ)) ∧
      probs.sum = 1 :=
  positionProbabilities_distribution c10SimPoints ["A", "B"] (by decide)
    (by decide) "A" (by decide)

/-- The latest-season fold is insensitive to the order of the archive:
its step function is the maximum of the accumulator and the season. -/
theorem findLatestSeason_perm (l l2 : List MatchResult) (hperm : l.Perm l2) :
    findLatestSeason l = findLatestSeason l2 := by
  unfold findLatestSeason
  refine hperm.foldl_eq' (fun x _ y _ z => ?_) ""
  have hstep : ∀ (z : String) (m : MatchResult),
      (if z < m.season then m.season else z) = max z m.season := by
    intro z m
    rcases lt_or_ge z m.season with h | h
    · rw [if_pos h, max_eq_right h.le]
    · rw [if_neg (not_lt.mpr h), max_eq_left h]
  rw [hstep, hstep, hstep, hstep]
  rw [max_assoc, max_comm x.season y.season, ← max_assoc]

omit [LinearOrderedField K] in
/-- The team universe is insensitive to the order of the archive. -/
theorem solverTeams_perm (l l2 : List MatchResult) (hperm : l.Perm l2)
    (o : MLEOptions K) (c : Finset String) :
    solverTeams { archive := l, options := o, leagueChangeTeams := c } =
      solverTeams { archive := l2, options := o, leagueChangeTeams := c } := by
  unfold solverTeams
  exact List.toFinset_eq_of_perm _ _
    (hperm.flatMap_right (fun m => [m.homeTeam, m.awayTeam]))

/-- When pow at exponent 0 is 1 -- as with math.Pow -- the adaptive
learning rate always collapses to the base rate: the decay fraction is
the time weight of the latest season against itself, which is 1. -/
theorem adaptiveRate_eq_base (F : FloatOps K) (Hpow : ∀ b : K, F.pow b 0 = 1)
    (s : MLESolver K) (team : String) (base : K) (m : MatchResult) :
    getAdaptiveLearningRate F s team base m = base := by
  unfold getAdaptiveLearningRate
  by_cases hc : team ∈ s.leagueChangeTeams ∧ m.season = solverLatestSeason s
  · rw [if_pos hc]
    have hw : getTimeWeight F s.options.simParams (solverLatestSeason s)
        (solverLatestSeason s) = 1 := by
      unfold getTimeWeight
      cases hy : convertSeasonToYear (solverLatestSeason s) with
      | none => rfl
      | some y =>
        show F.pow s.options.simParams.timeDecayBase
          (((y - y : Int) : K) * s.options.simParams.timeDecayPower) = 1
        have hz : ((y - y : Int) : K) * s.options.simParams.timeDecayPower = 0 := by
          simp
        rw [hz, Hpow]
    rw [hw]
    ring
  · rw [if_neg hc]

/-- The attack gradient accumulator is a commutative sum over the
archive, hence permutation-invariant. -/
theorem attackGradient_perm (F : FloatOps K) (l l2 : List MatchResult)
    (hperm : l.Perm l2) (o : MLEOptions K) (c : Finset String) (p : MLEParams K)
    (t : String) :
    attackGradient F { archive := l, options := o, leagueChangeTeams := c } p t =
      attackGradient F { archive := l2, options := o, leagueChangeTeams := c } p t := by
  unfold attackGradient
  show (l.map _).sum = (l2.map _).sum
  rw [show solverLatestSeason
      { archive := l, options := o, leagueChangeTeams := c : MLESolver K } =
      findLatestSeason l from rfl,
    show solverLatestSeason
      { archive := l2, options := o, leagueChangeTeams := c : MLESolver K } =
      findLatestSeason l2 from rfl,
    findLatestSeason_perm l l2 hperm]
  exact (hperm.map _).sum_eq

/-- The defense gradient accumulator is permutation-invariant. -/
theorem defenseGradient_perm (F : FloatOps K) (l l2 : List MatchResult)
    (hperm : l.Perm l2) (o : MLEOptions K) (c : Finset String) (p : MLEParams K)
    (t : String) :
    defenseGradient F { archive := l, options := o, leagueChangeTeams := c } p t =
      defenseGradient F { archive := l2, options := o, leagueChangeTeams := c } p t := by
  unfold defenseGradient
  show (l.map _).sum = (l2.map _).sum
  rw [show solverLatestSeason
      { archive := l, options := o, leagueChangeTeams := c : MLESolver K } =
      findLatestSeason l from rfl,
    show solverLatestSeason
      { archive := l2, options := o, leagueChangeTeams := c : MLESolver K } =
      findLatestSeason l2 from rfl,
    findLatestSeason_perm l l2 hperm]
  exact (hperm.map _).sum_eq

/-- The time-weighted log-likelihood is a commutative sum over the
archive, hence permutation-invariant. -/
theorem calcLogLikelihood_perm (F : FloatOps K) (l l2 : List MatchResult)
    (hperm : l.Perm l2) (o : MLEOptions K) (c : Finset String) (p : MLEParams K) :
    CalculateLogLikelihood F { archive := l, options := o, leagueChangeTeams := c } p =
      CalculateLogLikelihood F
        { archive := l2, options := o, leagueChangeTeams := c } p := by
  unfold CalculateLogLikelihood
  show (l.map _).sum = (l2.map _).sum
  rw [show solverLatestSeason
      { archive := l, options := o, leagueChangeTeams := c : MLESolver K } =
      findLatestSeason l from rfl,
    show solverLatestSeason
      { archive := l2, options := o, leagueChangeTeams := c : MLESolver K } =
      findLatestSeason l2 from rfl,
    findLatestSeason_perm l l2 hperm]
  exact (hperm.map _).sum_eq

omit [LinearOrderedField K] in
/-- Pointwise extensionality for parameter states. -/
theorem MLEParams.ext2 {p q : MLEParams K} (h1 : p.homeAdvantage = q.homeAdvantage)
    (h2 : p.rho = q.rho) (h3 : ∀ t, p.attackRatings t = q.attackRatings t)
    (h4 : ∀ t, p.defenseRatings t = q.defenseRatings t)
    (h5 : p.logLikelihood = q.logLikelihood) (h6 : p.iterations = q.iterations)
    (h7 : p.converged = q.converged) : p = q := by
  cases p
  cases q
  simp only [MLEParams.mk.injEq]
  exact ⟨h1, h2, funext h3, funext h4, h5, h6, h7⟩

/-- A single gradient step is permutation-invariant: the accumulated
gradients are order-free sums and the adaptive rate -- the only
order-sensitive ingredient, through the last-match tracker -- collapses
to the base rate. -/
theorem updateRatings_perm (F : FloatOps K) (Hpow : ∀ b : K, F.pow b 0 = 1)
    (l l2 : List MatchResult) (hperm : l.Perm l2) (o : MLEOptions K)
    (c : Finset String) (base : K) (p : MLEParams K) :
    updateRatings F { archive := l, options := o, leagueChangeTeams := c } base p =
      updateRatings F { archive := l2, options := o, leagueChangeTeams := c } base p := by
  have hteams := solverTeams_perm (K := K) l l2 hperm o c
  have hupd : ({ p with
      attackRatings := fun t =>
        if t ∈ solverTeams { archive := l, options := o, leagueChangeTeams := c } then
          p.attackRatings t +
            getAdaptiveLearningRate F
              { archive := l, options := o, leagueChangeTeams := c } t base
              (lastMatchFor l t) *
              attackGradient F { archive := l, options := o, leagueChangeTeams := c } p t
        else p.attackRatings t
      defenseRatings := fun t =>
        if t ∈ solverTeams { archive := l, options := o, leagueChangeTeams := c } then
          p.defenseRatings t +
            getAdaptiveLearningRate F
              { archive := l, options := o, leagueChangeTeams := c } t base
              (lastMatchFor l t) *
              defenseGradient F { archive := l, options := o, leagueChangeTeams := c } p t
        else p.defenseRatings t } : MLEParams K) =
      { p with
      attackRatings := fun t =>
        if t ∈ solverTeams { archive := l2, options := o, leagueChangeTeams := c } then
          p.attackRatings t +
            getAdaptiveLearningRate F
              { archive := l2, options := o, leagueChangeTeams := c } t base
              (lastMatchFor l2 t) *
              attackGradient F { archive := l2, options := o, leagueChangeTeams := c } p t
        else p.attackRatings t
      defenseRatings := fun t =>
        if t ∈ solverTeams { archive := l2, options := o, leagueChangeTeams := c } then
          p.defenseRatings t +
            getAdaptiveLearningRate F
              { archive := l2, options := o, leagueChangeTeams := c } t base
              (lastMatchFor l2 t) *
              defenseGradient F { archive := l2, options := o, leagueChangeTeams := c } p t
        else p.defenseRatings t } := by
    refine MLEParams.ext2 rfl rfl (fun t => ?_) (fun t => ?_) rfl rfl rfl
    · show (if t ∈ solverTeams { archive := l, options := o, leagueChangeTeams := c } then
        p.attackRatings t +
          getAdaptiveLearningRate F { archive := l, options := o, leagueChangeTeams := c }
            t base (lastMatchFor l t) *
            attackGradient F { archive := l, options := o, leagueChangeTeams := c } p t
        else p.attackRatings t) =
        (if t ∈ solverTeams { archive := l2, options := o, leagueChangeTeams := c } then
        p.attackRatings t +
          getAdaptiveLearningRate F { archive := l2, options := o, leagueChangeTeams := c }
            t base (lastMatchFor l2 t) *
            attackGradient F { archive := l2, options := o, leagueChangeTeams := c } p t
        else p.attackRatings t)
      rw [← hteams]
      by_cases ht : t ∈ solverTeams
          { archive := l, options := o, leagueChangeTeams := c : MLESolver K }
      · rw [if_pos ht, if_pos ht, adaptiveRate_eq_base F Hpow, adaptiveRate_eq_base F Hpow,
          attackGradient_perm F l l2 hperm o c p t]
      · rw [if_neg ht, if_neg ht]
    · show (if t ∈ solverTeams { archive := l, options := o, leagueChangeTeams := c } then
        p.defenseRatings t +
          getAdaptiveLearningRate F { archive := l, options := o, leagueChangeTeams := c }
            t base (lastMatchFor l t) *
            defenseGradient F { archive := l, options := o, leagueChangeTeams := c } p t
        else p.defenseRatings t) =
        (if t ∈ solverTeams { archive := l2, options := o, leagueChangeTeams := c } then
        p.defenseRatings t +
          getAdaptiveLearningRate F { archive := l2, options := o, leagueChangeTeams := c }
            t base (lastMatchFor l2 t) *
            defenseGradient F { archive := l2, options := o, leagueChangeTeams := c } p t
        else p.defenseRatings t)
      rw [← hteams]
      by_cases ht : t ∈ solverTeams
          { archive := l, options := o, leagueChangeTeams := c : MLESolver K }
      · rw [if_pos ht, if_pos ht, adaptiveRate_eq_base F Hpow, adaptiveRate_eq_base F Hpow,
          defenseGradient_perm F l l2 hperm o c p t]
      · rw [if_neg ht, if_neg ht]
  show normalizeRatings (solverTeams { archive := l, options := o, leagueChangeTeams := c })
      ({ p with
        attackRatings := fun t =>
          if t ∈ solverTeams { archive := l, options := o, leagueChangeTeams := c } then
            p.attackRatings t +
              getAdaptiveLearningRate F
                { archive := l, options := o, leagueChangeTeams := c } t base
                (lastMatchFor l t) *
                attackGradient F { archive := l, options := o, leagueChangeTeams := c } p t
          else p.attackRatings t
        defenseRatings := fun t =>
          if t ∈ solverTeams { archive := l, options := o, leagueChangeTeams := c } then
            p.defenseRatings t +
              getAdaptiveLearningRate F
                { archive := l, options := o, leagueChangeTeams := c } t base
                (lastMatchFor l t) *
                defenseGradient F { archive := l, options := o, leagueChangeTeams := c } p t
          else p.defenseRatings t }) =
    normalizeRatings (solverTeams { archive := l2, options := o, leagueChangeTeams := c })
      ({ p with
        attackRatings := fun t =>
          if t ∈ solverTeams { archive := l2, options := o, leagueChangeTeams := c } then
            p.attackRatings t +
              getAdaptiveLearningRate F
                { archive := l2, options := o, leagueChangeTeams := c } t base
                (lastMatchFor l2 t) *
                attackGradient F { archive := l2, options := o, leagueChangeTeams := c } p t
          else p.attackRatings t
        defenseRatings := fun t =>
          if t ∈ solverTeams { archive := l2, options := o, leagueChangeTeams := c } then
            p.defenseRatings t +
              getAdaptiveLearningRate F
                { archive := l2, options := o, leagueChangeTeams := c } t base
                (lastMatchFor l2 t) *
                defenseGradient F { archive := l2, options := o, leagueChangeTeams := c } p t
          else p.defenseRatings t })
  rw [hupd, hteams]

/-- Every iterate of the gradient ascent is permutation-invariant. -/
theorem mleIterate_perm (F : FloatOps K) (Hpow : ∀ b : K, F.pow b 0 = 1)
    (l l2 : List MatchResult) (hperm : l.Perm l2) (o : MLEOptions K)
    (c : Finset String) (k : Nat) :
    mleIterate F { archive := l, options := o, leagueChangeTeams := c } k =
      mleIterate F { archive := l2, options := o, leagueChangeTeams := c } k := by
  induction k with
  | zero => rfl
  | succ n ih =>
    show updateRatings F { archive := l, options := o, leagueChangeTeams := c }
        o.simParams.baseLearningRate
        (mleIterate F { archive := l, options := o, leagueChangeTeams := c } n) =
      updateRatings F { archive := l2, options := o, leagueChangeTeams := c }
        o.simParams.baseLearningRate
        (mleIterate F { archive := l2, options := o, leagueChangeTeams := c } n)
    rw [ih, updateRatings_perm F Hpow l l2 hperm o c]

/-- The optimisation loop is permutation-invariant from any state. -/
theorem optimizeGo_perm (F : FloatOps K) (Hpow : ∀ b : K, F.pow b 0 = 1)
    (l l2 : List MatchResult) (hperm : l.Perm l2) (o : MLEOptions K)
    (c : Finset String) :
    ∀ (r i : Nat) (st : MLEParams K) (prevL : K),
    optimizeGo F { archive := l, options := o, leagueChangeTeams := c } r i st prevL =
      optimizeGo F { archive := l2, options := o, leagueChangeTeams := c } r i st prevL := by
  intro r
  induction r with
  | zero =>
    intro i st prevL
    show ({ st with
        logLikelihood :=
          CalculateLogLikelihood F { archive := l, options := o, leagueChangeTeams := c } st,
        iterations := o.simParams.maxIterations, converged := false } : MLEParams K) =
      { st with
        logLikelihood :=
          CalculateLogLikelihood F { archive := l2, options := o, leagueChangeTeams := c } st,
        iterations := o.simParams.maxIterations, converged := false }
    rw [calcLogLikelihood_perm F l l2 hperm o c st]
  | succ r ih =>
    intro i st prevL
    simp only [optimizeGo]
    rw [updateRatings_perm F Hpow l l2 hperm o c, calcLogLikelihood_perm F l l2 hperm o c,
      ih]

/-- C9: fitting on any permutation of the match archive returns the
identical result -- in particular identical fitted attack and defense
ratings for every team.  The hypothesis pow b 0 = 1 holds for math.Pow
(and Real.rpow), and makes the adaptive learning rate independent of the
order-sensitive last-match tracker. -/
theorem optimize_permutation_invariant (F : FloatOps K)
    (Hpow : ∀ b : K, F.pow b 0 = 1) (l l2 : List MatchResult) (hperm : l.Perm l2)
    (o : MLEOptions K) (c : Finset String) :
    Optimize F { archive := l, options := o, leagueChangeTeams := c } =
      Optimize F { archive := l2, options := o, leagueChangeTeams := c } ∧
    (∀ p p2, Optimize F { archive := l, options := o, leagueChangeTeams := c } =
        Except.ok p →
      Optimize F { archive := l2, options := o, leagueChangeTeams := c } =
        Except.ok p2 →
      ∀ t, p.attackRatings t = p2.attackRatings t ∧
        p.defenseRatings t = p2.defenseRatings t) := by
  have hinit : (initParams { archive := l, options := o, leagueChangeTeams := c } :
      MLEParams K) = initParams { archive := l2, options := o, leagueChangeTeams := c } :=
    rfl
  have hmain : Optimize F { archive := l, options := o, leagueChangeTeams := c } =
      Optimize F { archive := l2, options := o, leagueChangeTeams := c } := by
    unfold Optimize
    rw [calcLogLikelihood_perm F l l2 hperm o c, optimizeGo_perm F Hpow l l2 hperm o c]
    rfl
  refine ⟨hmain, fun p p2 hp hp2 t => ?_⟩
  rw [hmain, hp2] at hp
  obtain rfl : p2 = p := (Except.ok.injEq _ _).mp hp
  exact ⟨rfl, rfl⟩

/-- Two-match archives differing only in order, with a league-change
team, used for the C9 witness. -/
def c9m1 : MatchResult :=
  { date := "2024-01-01", season := "2324", league := "ENG1",
    homeTeam := "A", awayTeam := "B", homeGoals := 1, awayGoals := 0 }

/-- Second match of the C9 witness archive. -/
def c9m2 : MatchResult :=
  { date := "2024-09-01", season := "2425", league := "ENG1",
    homeTeam := "B", awayTeam := "A", homeGoals := 2, awayGoals := 2 }

/-- Witness for C9 at a concrete swapped archive over the rational
float-operation stub, whose pow is constantly 1. -/
theorem optimize_permutation_invariant_witness :
    Optimize ratFloatOps
        { archive := [c9m1, c9m2], options := { simParams := DefaultSimParams, debug := false },
          leagueChangeTeams := {"A"} } =
      Optimize ratFloatOps
        { archive := [c9m2, c9m1], options := { simParams := DefaultSimParams, debug := false },
          leagueChangeTeams := {"A"} } :=
  (optimize_permutation_invariant ratFloatOps (fun _ => rfl) [c9m1, c9m2] [c9m2, c9m1]
    (List.Perm.swap c9m2 c9m1 []) { simParams := DefaultSimParams, debug := false }
    {"A"}).1
